import Mathlib

/-!
Formal model of the `Almacen_Viveres_App` procurement dashboard
(`src/App.tsx`, `src/services/geminiService.ts`, `src/types.ts`).

JavaScript strings are embedded as lists of characters (`Str := List Char`)
so that every operation computes by kernel reduction; the JavaScript string
primitives used by the code (`toLowerCase`, `split`, `includes`, `trim`,
`parseInt`, `String(...)`) are modelled character by character, faithful to
their behaviour on the data this application processes (the Unicode
lower-casing of `toLowerCase` is restricted to its ASCII action, which is
exact for every string the code compares or parses).  JavaScript numbers
are modelled as `Int`: every number the modelled code produces or compares
is integral.  `Array.prototype.sort` (stable since ES2019) is modelled by a
stable comparison sort in which an element is placed before earlier
elements exactly when the comparator orders it strictly earlier.
-/

namespace Almacen

/-- Characters of a JavaScript string. -/
abbrev Str := List Char

/-- Model of `String.prototype.toLowerCase` (exact on ASCII data). -/
def toLowerL (s : Str) : Str := s.map Char.toLower

/-- Model of the JavaScript `<` operator on strings: lexicographic
comparison of the character sequences. -/
def lexLt : Str → Str → Bool
  | [], [] => false
  | [], _ :: _ => true
  | _ :: _, [] => false
  | a :: s, b :: t => if a < b then true else if b < a then false else lexLt s t

/-- Boolean test that the first list occurs at the head of the second. -/
def isPrefixB [DecidableEq α] : List α → List α → Bool
  | [], _ => true
  | _ :: _, [] => false
  | a :: p, b :: l => a = b && isPrefixB p l

/-- Boolean test that the first list occurs somewhere inside the second,
modelling `String.prototype.includes`. -/
def isInfixB [DecidableEq α] (p : List α) : List α → Bool
  | [] => isPrefixB p []
  | l@(_ :: t) => isPrefixB p l || isInfixB p t

/-- Boolean test that the first list occurs at the end of the second. -/
def isSuffixB [DecidableEq α] (p l : List α) : Bool :=
  isPrefixB p.reverse l.reverse

/-- Model of JavaScript whitespace (`\s`, `trim`): exact on the ASCII
whitespace this application's data can contain. -/
def isWhiteB (c : Char) : Bool := c.isWhitespace

/-- Model of `String.prototype.trim`. -/
def trimL (s : Str) : Str :=
  ((s.dropWhile isWhiteB).reverse.dropWhile isWhiteB).reverse

/-- First occurrence of the separator inside a list: `some (pre, post)`
splits the list as `pre ++ sep ++ post` at the leftmost occurrence.  An
empty separator yields `none` (the modelled code only splits on `" de "`
and `"/"`). -/
def firstSplit [DecidableEq α] (sep : List α) : List α → Option (List α × List α)
  | [] => if sep.isEmpty then none else if isPrefixB sep [] then some ([], []) else none
  | c :: rest =>
    if sep.isEmpty then none
    else if isPrefixB sep (c :: rest) then some ([], (c :: rest).drop sep.length)
    else (firstSplit sep rest).map (fun p => (c :: p.1, p.2))

/-- Fuel-driven splitter used by `splitOnL`; each step removes at least one
element, so fuel `l.length + 1` always suffices. -/
def splitOnFuel [DecidableEq α] (sep : List α) : Nat → List α → List (List α)
  | 0, l => [l]
  | fuel + 1, l =>
    match firstSplit sep l with
    | none => [l]
    | some (pre, post) => pre :: splitOnFuel sep fuel post

/-- Model of `String.prototype.split` with a non-empty string separator:
split at each non-overlapping leftmost occurrence. -/
def splitOnL [DecidableEq α] (sep l : List α) : List (List α) :=
  splitOnFuel sep (l.length + 1) l

/-- Decimal digits of a natural number (fuel-driven so it reduces in the
kernel). -/
def natDigits : Nat → Nat → Str
  | 0, _ => []
  | fuel + 1, n =>
    if n < 10 then [Char.ofNat (48 + n)]
    else natDigits fuel (n / 10) ++ [Char.ofNat (48 + n % 10)]

/-- Decimal notation of a natural number. -/
def natToStr (n : Nat) : Str := natDigits (n + 1) n

/-- Model of JavaScript `String(n)` for an integral number. -/
def intToStr (n : Int) : Str :=
  if n < 0 then '-' :: natToStr n.natAbs else natToStr n.natAbs

/-- Value of the leading run of decimal digits, `none` when there is no
leading digit (the condition under which `parseInt` yields `NaN`). -/
def digitsVal (cs : Str) : Option Nat :=
  match cs.takeWhile Char.isDigit with
  | [] => none
  | ds => some (ds.foldl (fun n c => 10 * n + (c.toNat - 48)) 0)

/-- Model of JavaScript `parseInt(s, 10)`: leading whitespace is skipped,
an optional sign is read, and the value of the longest digit run that
follows is returned; `none` models a `NaN` result.  (Exact for every
argument whose digit run fits a double, which covers all data this
application parses.) -/
def jsParseInt (s : Str) : Option Int :=
  match s.dropWhile isWhiteB with
  | '-' :: rest => (digitsVal rest).map (fun n => -(n : Int))
  | '+' :: rest => (digitsVal rest).map (fun n => (n : Int))
  | cs => (digitsVal cs).map (fun n => (n : Int))

end Almacen

namespace Almacen

/-- A JavaScript value as far as the table layer inspects one: `null`,
`undefined`, a string, an integral number, or anything else together with
its `String(...)` rendering. -/
inductive JsVal where
  | vnull : JsVal
  | vundefined : JsVal
  | vstr (s : Str) : JsVal
  | vnum (n : Int) : JsVal
  | vother (rep : Str) : JsVal
deriving DecidableEq

/-- Model of JavaScript `String(value)` on the values above. -/
def jsToString : JsVal → Str
  | .vnull => "null".data
  | .vundefined => "undefined".data
  | .vstr s => s
  | .vnum n => intToStr n
  | .vother rep => rep

/-- Sort direction of the table hook (`"asc" | "desc"` in `App.tsx`). -/
inductive SortDirection where
  | asc : SortDirection
  | desc : SortDirection
deriving DecidableEq

/-- The comparator of `useSortableData` (App.tsx:146-168): `null` and
`undefined` first operands return `1`, `null`/`undefined` second operands
return `-1`, two strings compare by their lower-cased forms with the
requested direction, two numbers compare numerically with the requested
direction, and every other combination returns `0`. -/
def cmpVal (dir : SortDirection) (a b : JsVal) : Int :=
  if a = .vnull ∨ a = .vundefined then 1
  else if b = .vnull ∨ b = .vundefined then -1
  else
    match a, b with
    | .vstr s, .vstr t =>
      if lexLt (toLowerL s) (toLowerL t) then
        (match dir with | .asc => -1 | .desc => 1)
      else if lexLt (toLowerL t) (toLowerL s) then
        (match dir with | .asc => 1 | .desc => -1)
      else 0
    | .vnum m, .vnum n =>
      if m < n then (match dir with | .asc => -1 | .desc => 1)
      else if n < m then (match dir with | .asc => 1 | .desc => -1)
      else 0
    | _, _ => 0

/-- One insertion step of the stable sort: `x`, which occurred before every
element of the already-sorted list, walks past exactly the elements the
comparator orders strictly before it. -/
def sIns (lt : α → α → Bool) (x : α) : List α → List α
  | [] => [x]
  | b :: l => if lt b x then b :: sIns lt x l else x :: b :: l

/-- Stable comparison sort modelling `Array.prototype.sort(cmp)`;
`lt a b` models `cmp(a, b) < 0`. -/
def sSort (lt : α → α → Bool) : List α → List α
  | [] => []
  | x :: l => sIns lt x (sSort lt l)

theorem sIns_perm (lt : α → α → Bool) (x : α) (l : List α) :
    (sIns lt x l).Perm (x :: l) := by
  induction l with
  | nil => simp [sIns]
  | cons b m ih =>
    by_cases h : lt b x = true
    · simpa [sIns, h] using ((ih.cons b).trans (List.Perm.swap x b m))
    · simp [sIns, h]

theorem sSort_perm (lt : α → α → Bool) (l : List α) :
    (sSort lt l).Perm l := by
  induction l with
  | nil => simp [sSort]
  | cons x m ih => exact (sIns_perm lt x (sSort lt m)).trans (ih.cons x)

theorem chain'_sIns (lt : α → α → Bool)
    (hasym : ∀ a b, lt a b = true → lt b a = false)
    (x : α) (l : List α)
    (hl : l.Chain' (fun p n => lt n p = false)) :
    (sIns lt x l).Chain' (fun p n => lt n p = false) := by
  induction l with
  | nil => simp [sIns]
  | cons b m ih =>
    by_cases h : lt b x = true
    · have hbx := hasym _ _ h
      have hm : m.Chain' (fun p n => lt n p = false) := hl.tail
      have ihm := ih hm
      rw [sIns, if_pos h]
      cases m with
      | nil => simp [sIns, hbx]
      | cons c m' =>
        have hbc : lt c b = false := (List.chain'_cons.mp hl).1
        by_cases hcx : lt c x = true
        · rw [show sIns lt x (c :: m') = c :: sIns lt x m' from by simp [sIns, hcx]]
          refine List.chain'_cons.mpr ⟨hbc, ?_⟩
          simpa [sIns, hcx] using ihm
        · rw [show sIns lt x (c :: m') = x :: c :: m' from by simp [sIns, hcx]]
          exact List.chain'_cons.mpr ⟨hbx, List.chain'_cons.mpr ⟨by simpa using hcx, hm⟩⟩
    · have hx : lt b x = false := by simpa using h
      rw [sIns, if_neg h]
      exact List.chain'_cons.mpr ⟨hx, hl⟩

theorem chain'_sSort (lt : α → α → Bool)
    (hasym : ∀ a b, lt a b = true → lt b a = false) (l : List α) :
    (sSort lt l).Chain' (fun p n => lt n p = false) := by
  induction l with
  | nil => simp [sSort]
  | cons x m ih => exact chain'_sIns lt hasym x (sSort lt m) ih

theorem sSort_eq_self_of_chain' (lt : α → α → Bool) (l : List α)
    (hl : l.Chain' (fun p n => lt n p = false)) :
    sSort lt l = l := by
  induction l with
  | nil => rfl
  | cons x m ih =>
    have hm := hl.tail
    rw [sSort, ih hm]
    cases m with
    | nil => rfl
    | cons b m' =>
      have hbx : lt b x = false := (List.chain'_cons.mp hl).1
      simp [sIns, hbx]

/-- Sorting twice with the same comparator is the same as sorting once,
for any comparator that never orders two elements strictly before each
other in both directions. -/
theorem sSort_idem (lt : α → α → Bool)
    (hasym : ∀ a b, lt a b = true → lt b a = false) (l : List α) :
    sSort lt (sSort lt l) = sSort lt l :=
  sSort_eq_self_of_chain' lt _ (chain'_sSort lt hasym l)

end Almacen

namespace Almacen

theorem lexLt_asymm : ∀ s t : Str, lexLt s t = true → lexLt t s = false
  | [], [] => by simp [lexLt]
  | [], _ :: _ => by simp [lexLt]
  | _ :: _, [] => by simp [lexLt]
  | a :: s, b :: t => by
    by_cases hab : a < b
    · simp [lexLt, hab, lt_asymm hab]
    · by_cases hba : b < a
      · simp [lexLt, hab, hba]
      · intro h
        have hst := lexLt_asymm s t (by simpa [lexLt, hab, hba] using h)
        simp [lexLt, hab, hba, hst]

theorem lexLt_trans : ∀ s t u : Str,
    lexLt s t = true → lexLt t u = true → lexLt s u = true
  | [], [], _ => by simp [lexLt]
  | [], _ :: _, [] => by intro _ h; simp [lexLt] at h
  | [], _ :: _, _ :: _ => by simp [lexLt]
  | _ :: _, [], _ => by intro h; simp [lexLt] at h
  | _ :: _, _ :: _, [] => by intro _ h; simp [lexLt] at h
  | a :: s, b :: t, c :: u => by
    intro h1 h2
    by_cases hab : a < b
    · by_cases hbc : b < c
      · simp [lexLt, lt_trans hab hbc]
      · by_cases hcb : c < b
        · simp [lexLt, hbc, hcb] at h2
        · have hbceq : b = c := le_antisymm (not_lt.mp hcb) (not_lt.mp hbc)
          subst hbceq
          simp [lexLt, hab]
    · by_cases hba : b < a
      · simp [lexLt, hab, hba] at h1
      · have habeq : a = b := le_antisymm (not_lt.mp hba) (not_lt.mp hab)
        subst habeq
        have h1' : lexLt s t = true := by simpa [lexLt, hab, hba] using h1
        by_cases hac : a < c
        · simp [lexLt, hac]
        · by_cases hca : c < a
          · simp [lexLt, hac, hca] at h2
          · have haceq : a = c := le_antisymm (not_lt.mp hca) (not_lt.mp hac)
            subst haceq
            have h2' : lexLt t u = true := by simpa [lexLt, hac, hca] using h2
            simp [lexLt, hac, hca, lexLt_trans s t u h1' h2']

theorem lexLt_eq_of_not_lt : ∀ s t : Str,
    lexLt s t = false → lexLt t s = false → s = t
  | [], [] => by simp
  | [], _ :: _ => by intro h; simp [lexLt] at h
  | _ :: _, [] => by intro _ h; simp [lexLt] at h
  | a :: s, b :: t => by
    intro h1 h2
    by_cases hab : a < b
    · simp [lexLt, hab] at h1
    · by_cases hba : b < a
      · simp [lexLt, hba] at h2
      · have habeq : a = b := le_antisymm (not_lt.mp hba) (not_lt.mp hab)
        subst habeq
        have h1' : lexLt s t = false := by simpa [lexLt, hab, hba] using h1
        have h2' : lexLt t s = false := by simpa [lexLt, hab, hba] using h2
        rw [lexLt_eq_of_not_lt s t h1' h2']

theorem lexLt_total_of_ne {s t : Str} (h : s ≠ t) :
    lexLt s t = true ∨ lexLt t s = true := by
  by_cases h1 : lexLt s t = true
  · exact Or.inl h1
  · by_cases h2 : lexLt t s = true
    · exact Or.inr h2
    · exact absurd (lexLt_eq_of_not_lt s t (by simpa using h1) (by simpa using h2)) h

theorem chain'_imp₂ {R Q S : α → α → Prop}
    (h : ∀ a b, R a b → Q a b → S a b) :
    ∀ {l : List α}, l.Chain' R → l.Chain' Q → l.Chain' S
  | [], _, _ => List.chain'_nil
  | [_], _, _ => List.chain'_singleton _
  | _ :: _ :: _, hr, hq =>
    List.chain'_cons.mpr
      ⟨h _ _ (List.chain'_cons.mp hr).1 (List.chain'_cons.mp hq).1,
       chain'_imp₂ h (List.chain'_cons.mp hr).2 (List.chain'_cons.mp hq).2⟩

theorem pairwise_of_chain'_trans {S : α → α → Prop} :
    ∀ L : List α, L.Chain' S →
      (∀ a b c, S a b → S b c → S a c) → L.Pairwise S := by
  intro L
  induction L with
  | nil => intro _ _; exact List.Pairwise.nil
  | cons x M ih =>
    intro hch htr
    have hm : M.Pairwise S := ih hch.tail htr
    refine List.pairwise_cons.mpr ⟨?_, hm⟩
    intro y hy
    cases M with
    | nil => cases hy
    | cons b M' =>
      have hxb : S x b := (List.chain'_cons.mp hch).1
      rcases List.mem_cons.mp hy with rfl | hy'
      · exact hxb
      · exact htr x b y hxb ((List.pairwise_cons.mp hm).1 y hy')

theorem eq_of_perm_of_pairwise_strict {S : α → α → Prop}
    (hasym : ∀ a b, S a b → S b a → False) :
    ∀ L1 L2 : List α, L1.Perm L2 → L1.Pairwise S → L2.Pairwise S → L1 = L2 := by
  intro L1
  induction L1 with
  | nil =>
    intro L2 hp _ _
    exact (List.Perm.nil_eq hp)
  | cons x T1 ih =>
    intro L2 hp h1 h2
    cases L2 with
    | nil => simpa using hp.symm.nil_eq
    | cons y T2 =>
      by_cases hxy : x = y
      · subst hxy
        rw [ih T2 hp.cons_inv (List.pairwise_cons.mp h1).2 (List.pairwise_cons.mp h2).2]
      · have hx2 : x ∈ y :: T2 := hp.mem_iff.mp (by simp)
        have hxT2 : x ∈ T2 := by
          rcases List.mem_cons.mp hx2 with h | h
          · exact absurd h hxy
          · exact h
        have hyx : S y x := (List.pairwise_cons.mp h2).1 x hxT2
        have hy1 : y ∈ x :: T1 := hp.symm.mem_iff.mp (by simp)
        have hyT1 : y ∈ T1 := by
          rcases List.mem_cons.mp hy1 with h | h
          · exact absurd h.symm hxy
          · exact h
        have hxy' : S x y := (List.pairwise_cons.mp h1).1 y hyT1
        exact absurd hyx (fun h => hasym x y hxy' h)

end Almacen

namespace Almacen

theorem cmpVal_asymm (dir : SortDirection) :
    ∀ a b : JsVal, cmpVal dir a b < 0 → ¬ cmpVal dir b a < 0 := by
  intro a b h hba
  cases a with
  | vnull => simp [cmpVal] at h
  | vundefined => simp [cmpVal] at h
  | vstr s =>
    cases b with
    | vnull => simp [cmpVal] at hba
    | vundefined => simp [cmpVal] at hba
    | vstr t =>
      by_cases h1 : lexLt (toLowerL s) (toLowerL t) = true
      · have h2 := lexLt_asymm _ _ h1
        cases dir <;> simp [cmpVal, h1, h2] at h hba
      · by_cases h2 : lexLt (toLowerL t) (toLowerL s) = true
        · cases dir <;> simp [cmpVal, h1, h2] at h hba
        · cases dir <;> simp [cmpVal, h1, h2] at h
    | vnum n => simp [cmpVal] at h
    | vother r => simp [cmpVal] at h
  | vnum m =>
    cases b with
    | vnull => simp [cmpVal] at hba
    | vundefined => simp [cmpVal] at hba
    | vstr t => simp [cmpVal] at h
    | vnum n =>
      by_cases h1 : m < n
      · have h2 : ¬ n < m := lt_asymm h1
        cases dir <;> simp [cmpVal, h1, h2] at h hba
      · by_cases h2 : n < m
        · cases dir <;> simp [cmpVal, h1, h2] at h hba
        · cases dir <;> simp [cmpVal, h1, h2] at h
    | vother r => simp [cmpVal] at h
  | vother r =>
    cases b with
    | vnull => simp [cmpVal] at hba
    | vundefined => simp [cmpVal] at hba
    | vstr t => simp [cmpVal] at h
    | vnum n => simp [cmpVal] at h
    | vother r' => simp [cmpVal] at h

theorem cmpVal_lt_trans (dir : SortDirection) :
    ∀ a b c : JsVal,
      cmpVal dir a b < 0 → cmpVal dir b c < 0 → cmpVal dir a c < 0 := by
  intro a b c h1 h2
  cases b with
  | vnull => simp [cmpVal] at h2
  | vundefined => simp [cmpVal] at h2
  | vstr t =>
    cases a with
    | vnull => simp [cmpVal] at h1
    | vundefined => simp [cmpVal] at h1
    | vnum m => simp [cmpVal] at h1
    | vother r => simp [cmpVal] at h1
    | vstr s =>
      cases c with
      | vnull => simp [cmpVal]
      | vundefined => simp [cmpVal]
      | vnum n => simp [cmpVal] at h2
      | vother r => simp [cmpVal] at h2
      | vstr u =>
        cases dir with
        | asc =>
          have hst : lexLt (toLowerL s) (toLowerL t) = true := by
            by_cases hx : lexLt (toLowerL s) (toLowerL t) = true
            · exact hx
            · by_cases hy : lexLt (toLowerL t) (toLowerL s) = true <;>
                simp [cmpVal, hx, hy] at h1
          have htu : lexLt (toLowerL t) (toLowerL u) = true := by
            by_cases hx : lexLt (toLowerL t) (toLowerL u) = true
            · exact hx
            · by_cases hy : lexLt (toLowerL u) (toLowerL t) = true <;>
                simp [cmpVal, hx, hy] at h2
          simp [cmpVal, lexLt_trans _ _ _ hst htu]
        | desc =>
          have hts : lexLt (toLowerL t) (toLowerL s) = true := by
            by_cases hx : lexLt (toLowerL s) (toLowerL t) = true
            · simp [cmpVal, hx] at h1
            · by_cases hy : lexLt (toLowerL t) (toLowerL s) = true
              · exact hy
              · simp [cmpVal, hx, hy] at h1
          have hut : lexLt (toLowerL u) (toLowerL t) = true := by
            by_cases hx : lexLt (toLowerL t) (toLowerL u) = true
            · simp [cmpVal, hx] at h2
            · by_cases hy : lexLt (toLowerL u) (toLowerL t) = true
              · exact hy
              · simp [cmpVal, hx, hy] at h2
          have hus := lexLt_trans _ _ _ hut hts
          simp [cmpVal, hus, lexLt_asymm _ _ hus]
  | vnum t =>
    cases a with
    | vnull => simp [cmpVal] at h1
    | vundefined => simp [cmpVal] at h1
    | vstr s => simp [cmpVal] at h1
    | vother r => simp [cmpVal] at h1
    | vnum m =>
      cases c with
      | vnull => simp [cmpVal]
      | vundefined => simp [cmpVal]
      | vstr u => simp [cmpVal] at h2
      | vother r => simp [cmpVal] at h2
      | vnum n =>
        cases dir with
        | asc =>
          have hmt : m < t := by
            by_cases hx : m < t
            · exact hx
            · by_cases hy : t < m <;> simp [cmpVal, hx, hy] at h1
          have htn : t < n := by
            by_cases hx : t < n
            · exact hx
            · by_cases hy : n < t <;> simp [cmpVal, hx, hy] at h2
          simp [cmpVal, lt_trans hmt htn]
        | desc =>
          have htm : t < m := by
            by_cases hx : m < t
            · simp [cmpVal, hx] at h1
            · by_cases hy : t < m
              · exact hy
              · simp [cmpVal, hx, hy] at h1
          have hnt : n < t := by
            by_cases hx : t < n
            · simp [cmpVal, hx] at h2
            · by_cases hy : n < t
              · exact hy
              · simp [cmpVal, hx, hy] at h2
          have hnm := lt_trans hnt htm
          simp [cmpVal, hnm, lt_asymm hnm]
  | vother t =>
    cases a with
    | vnull => simp [cmpVal] at h1
    | vundefined => simp [cmpVal] at h1
    | vstr s => simp [cmpVal] at h1
    | vnum m => simp [cmpVal] at h1
    | vother r => simp [cmpVal] at h1

/-- Two key values that are strictly comparable under the table comparator:
both strings with distinct lower-casings, or both numbers with distinct
values.  This is the formal reading of values "totally ordered (all
comparable under the comparator)" with no ties. -/
def strictPair : JsVal → JsVal → Prop
  | .vstr s, .vstr t => toLowerL s ≠ toLowerL t
  | .vnum m, .vnum n => m ≠ n
  | _, _ => False

theorem strictPair_symm : ∀ {u v : JsVal}, strictPair u v → strictPair v u := by
  intro u v h
  cases u <;> cases v <;> simp [strictPair] at h ⊢ <;> exact fun he => h he.symm

theorem strictPair_total (dir : SortDirection) :
    ∀ {u v : JsVal}, strictPair u v →
      cmpVal dir u v < 0 ∨ cmpVal dir v u < 0 := by
  intro u v h
  cases u with
  | vnull => simp [strictPair] at h
  | vundefined => simp [strictPair] at h
  | vother r => simp [strictPair] at h
  | vstr s =>
    cases v with
    | vstr t =>
      have h' : toLowerL s ≠ toLowerL t := h
      rcases lexLt_total_of_ne h' with hst | hts
      · cases dir with
        | asc => exact Or.inl (by simp [cmpVal, hst])
        | desc => exact Or.inr (by simp [cmpVal, hst, lexLt_asymm _ _ hst])
      · cases dir with
        | asc => exact Or.inr (by simp [cmpVal, hts])
        | desc => exact Or.inl (by simp [cmpVal, hts, lexLt_asymm _ _ hts])
    | vnull => simp [strictPair] at h
    | vundefined => simp [strictPair] at h
    | vnum n => simp [strictPair] at h
    | vother r => simp [strictPair] at h
  | vnum m =>
    cases v with
    | vnum n =>
      have h' : m ≠ n := h
      rcases lt_or_gt_of_ne h' with hmn | hnm
      · cases dir with
        | asc => exact Or.inl (by simp [cmpVal, hmn])
        | desc => exact Or.inr (by simp [cmpVal, hmn, lt_asymm hmn])
      · cases dir with
        | asc => exact Or.inr (by simp [cmpVal, hnm])
        | desc => exact Or.inl (by simp [cmpVal, hnm, lt_asymm hnm])
    | vnull => simp [strictPair] at h
    | vundefined => simp [strictPair] at h
    | vstr t => simp [strictPair] at h
    | vother r => simp [strictPair] at h

theorem strictPair_flip :
    ∀ {u v : JsVal}, strictPair u v →
      cmpVal .asc u v < 0 → cmpVal .desc v u < 0 := by
  intro u v h hlt
  cases u with
  | vnull => simp [strictPair] at h
  | vundefined => simp [strictPair] at h
  | vother r => simp [strictPair] at h
  | vstr s =>
    cases v with
    | vstr t =>
      have hst : lexLt (toLowerL s) (toLowerL t) = true := by
        by_cases hx : lexLt (toLowerL s) (toLowerL t) = true
        · exact hx
        · by_cases hy : lexLt (toLowerL t) (toLowerL s) = true <;>
            simp [cmpVal, hx, hy] at hlt
      simp [cmpVal, hst, lexLt_asymm _ _ hst]
    | vnull => simp [strictPair] at h
    | vundefined => simp [strictPair] at h
    | vnum n => simp [strictPair] at h
    | vother r => simp [strictPair] at h
  | vnum m =>
    cases v with
    | vnum n =>
      have hmn : m < n := by
        by_cases hx : m < n
        · exact hx
        · by_cases hy : n < m <;> simp [cmpVal, hx, hy] at hlt
      simp [cmpVal, hmn, lt_asymm hmn]
    | vnull => simp [strictPair] at h
    | vundefined => simp [strictPair] at h
    | vstr t => simp [strictPair] at h
    | vother r => simp [strictPair] at h

end Almacen

namespace Almacen

/-- A data row as the generic `DataTable` sees one: a record identity plus
its fields.  `rid` keeps two rows with equal fields distinguishable, as two
distinct JavaScript objects are. -/
structure Row where
  rid : Nat
  fields : List (Str × JsVal)
deriving DecidableEq

/-- First association of a key, modelling JavaScript property lookup. -/
def findAssoc [DecidableEq κ] (k : κ) : List (κ × β) → Option β
  | [] => none
  | p :: ps => if p.1 = k then some p.2 else findAssoc k ps

/-- Model of `item[key]`: a missing property reads as `undefined`. -/
def getField (r : Row) (k : Str) : JsVal := (findAssoc k r.fields).getD .vundefined

/-- The non-null sort state `{key, direction}` of `useSortableData`. -/
structure SortKeyDir where
  key : Str
  direction : SortDirection
deriving DecidableEq

/-- Model of `requestSort` (App.tsx:174-184): clicking a header sets that
key ascending, unless it is already the active ascending key, in which case
the direction toggles to descending. -/
def requestSort (key : Str) (cfg : Option SortKeyDir) : Option SortKeyDir :=
  some
    { key := key
      direction :=
        match cfg with
        | some c => if c.key = key ∧ c.direction = .asc then .desc else .asc
        | none => .asc }

/-- The row ordering test `cmp(a, b) < 0` for the table comparator applied
at a sort key. -/
def ltRow (dir : SortDirection) (k : Str) (a b : Row) : Bool :=
  decide (cmpVal dir (getField a k) (getField b k) < 0)

/-- Model of `sortableItems.sort(comparator)` for a fixed key/direction. -/
def jsSortRows (dir : SortDirection) (k : Str) (rows : List Row) : List Row :=
  sSort (ltRow dir k) rows

/-- The `sortedItems` memo of `useSortableData` (App.tsx:143-172): the
input order when the sort configuration is `null`, otherwise the stable
sort under the configured key and direction. -/
def sortedItems (cfg : Option SortKeyDir) (items : List Row) : List Row :=
  match cfg with
  | none => items
  | some c => jsSortRows c.direction c.key items

theorem ltRow_asymm (dir : SortDirection) (k : Str) :
    ∀ a b : Row, ltRow dir k a b = true → ltRow dir k b a = false := by
  intro a b h
  have h' := of_decide_eq_true h
  simp only [ltRow, decide_eq_false_iff_not]
  exact cmpVal_asymm dir _ _ h'

/-- The row predicate of the `DataTable` search filter (App.tsx:412-417):
some search key holds a non-`null`, non-`undefined` value whose
stringification contains the (already lower-cased) term. -/
def rowMatches (lterm : Str) (keys : List Str) (r : Row) : Bool :=
  keys.any fun k =>
    match getField r k with
    | .vnull => false
    | .vundefined => false
    | v => isInfixB lterm (toLowerL (jsToString v))

/-- Model of the `filteredData` memo of `DataTable` (App.tsx:409-418): an
empty term passes the sorted list through, otherwise the sorted list is
filtered by `rowMatches` under the lower-cased term. -/
def filteredData (term : Str) (keys : List Str) (sorted : List Row) : List Row :=
  if term = [] then sorted
  else sorted.filter (rowMatches (toLowerL term) keys)

end Almacen

namespace Almacen

/-- Day count from 1970-01-01 of the civil date `(y, m, d)` with `m` in
1..12 and an arbitrary (possibly out-of-range) day `d`, which rolls over
linearly, exactly as ECMAScript `MakeDay` does. -/
def daysFromCivil (y m d : Int) : Int :=
  let yy := y - (if m ≤ 2 then 1 else 0)
  let era := yy.fdiv 400
  let yoe := yy - era * 400
  let mp := (m + 9) % 12
  let doy := (153 * mp + 2) / 5 + d - 1
  let doe := yoe * 365 + yoe / 4 - yoe / 100 + doy
  era * 146097 + doe - 719468

/-- Civil date `(year, month 1..12, day 1..31)` of a day count from
1970-01-01. -/
def civilFromDays (z0 : Int) : Int × Int × Int :=
  let z := z0 + 719468
  let era := z.fdiv 146097
  let doe := z - era * 146097
  let yoe := (doe - doe / 1460 + doe / 36524 - doe / 146096) / 365
  let y := yoe + era * 400
  let doy := doe - (365 * yoe + yoe / 4 - yoe / 100)
  let mp := (5 * doy + 2) / 153
  let d := doy - (153 * mp + 2) / 5 + 1
  let m := mp + (if mp < 10 then 3 else -9)
  (y + (if m ≤ 2 then 1 else 0), m, d)

/-- Day number produced by `new Date(year, month, day)` before ECMAScript's
`TimeClip` range check: years 0..99 are offset to 1900..1999
(`MakeFullYear`), the 0-based month is normalised into the year by floor
division, and the day rolls over linearly. -/
def mkDayNumber (year month day : Int) : Int :=
  let y := if 0 ≤ year ∧ year ≤ 99 then year + 1900 else year
  let ym := y * 12 + month
  daysFromCivil (ym.fdiv 12) (ym.fmod 12 + 1) day

/-- Model of `new Date(year, month, day)` at day resolution: `some` day
number when the result is within ECMAScript's representable time range
(at most 100,000,000 days from the epoch, per `TimeClip`), `none` for an
`Invalid Date`. -/
def mkJsDate (year month day : Int) : Option Int :=
  let z := mkDayNumber year month day
  if z < -100000000 ∨ 100000000 < z then none else some z

/-- The fixed Spanish month table of `parseDate` (App.tsx:48-51),
January = 0. -/
def monthsTable : List (Str × Int) :=
  [("enero".data, 0), ("febrero".data, 1), ("marzo".data, 2),
   ("abril".data, 3), ("mayo".data, 4), ("junio".data, 5),
   ("julio".data, 6), ("agosto".data, 7), ("septiembre".data, 8),
   ("octubre".data, 9), ("noviembre".data, 10), ("diciembre".data, 11)]

/-- The literal separator `" de "`. -/
def deSep : Str := " de ".data

/-- The literal separator `"/"`. -/
def slashSep : Str := "/".data

/-- The `"dd de month de yyyy"` branch of `parseDate` (App.tsx:52-60):
`some r` means the branch returned date `r`; `none` means control fell
through to the `"dd/mm/yyyy"` branch. -/
def parseDateDe (s : Str) : Option (Option Int) :=
  match splitOnL deSep (toLowerL s) with
  | [p0, p1, p2] =>
    match jsParseInt p0, findAssoc p1 monthsTable, jsParseInt p2 with
    | some day, some month, some year => some (mkJsDate year month day)
    | _, _, _ => none
  | _ => none

/-- The `"dd/mm/yyyy"` branch of `parseDate` (App.tsx:62-70): `some r`
means the branch returned date `r`; `none` means control fell through to
the generic `new Date(string)` fallback. -/
def parseDateSlash (s : Str) : Option (Option Int) :=
  match splitOnL slashSep s with
  | [p0, p1, p2] =>
    match jsParseInt p0, jsParseInt p1, jsParseInt p2 with
    | some day, some month, some year => some (mkJsDate year (month - 1) day)
    | _, _, _ => none
  | _ => none

/-- Model of `parseDate` (App.tsx:46-73).  The generic `new Date(string)`
fallback is implementation-defined in ECMAScript, so it is passed in as the
parameter `generic` (`none` modelling an `Invalid Date`). -/
def parseDate (generic : Str → Option Int) (s : Str) : Option Int :=
  match parseDateDe s with
  | some r => r
  | none =>
    match parseDateSlash s with
    | some r => r
    | none => generic s

example : daysFromCivil 1970 1 1 = 0 := by decide
example : daysFromCivil 2024 1 15 = 19737 := by decide
example : civilFromDays 19737 = (2024, 1, 15) := by decide
example : mkJsDate 2024 0 15 = some 19737 := by decide
example : parseDate (fun _ => none) "15 de enero de 2024".data = some 19737 := by decide
example : parseDate (fun _ => none) "15/01/2024".data = some 19737 := by decide

end Almacen

namespace Almacen

/-- Product catalogue entry (`Articulo` in src/types.ts). -/
structure Articulo where
  codigo : Int
  descripcion_articulo : Str
  unidad_medida : Str
  partida_especifica : Int
  precio_medio : Int ⊕ Str
  ultima_fecha : Str
  estatus : Option Str
  imagen_producto : Option Str
deriving DecidableEq

/-- Supplier record (`Proveedor` in src/types.ts). -/
structure Proveedor where
  id_proveedor : Int
  proveedor : Str
  domicilio : Str
  ciudad : Str
  correo_electronico : Option Str
  telefono : Option Str
  giro_comercial : Str
  logotipo_imagen : Str
deriving DecidableEq

/-- Contract record (`Contrato` in src/types.ts). -/
structure Contrato where
  id_contrato : Int
  licitacion_fk : Str
  contrato : Str
  proveedor_fk : Str
  monto_maximo : Int
  inicio_vigencia : Str
  fin_vigencia : Str
deriving DecidableEq

/-- Awarded line item (`Adjudicado` in src/types.ts). -/
structure Adjudicado where
  id_adjudicado : Int
  contrato_fk : Str
  codigo_fk : Int
  cantidad_minima : Int
  cantidad_maxima : Int
  cantidad_consumida : Int
  cantidad_disponible : Int
  estatus_cantidad : Str
  precio_unitario : Int
  iva : Int
  ieps : Int
  importe_maximo : Int
deriving DecidableEq

/-- The four base tables the join layer consumes. -/
structure AllData where
  articulos : List Articulo
  proveedores : List Proveedor
  contratos : List Contrato
  adjudicados : List Adjudicado

/-- An award joined with its resolved article (the spread
`{...adj, articulo: articulosMap.get(adj.codigo_fk)}`). -/
structure AdjudicadoJ extends Adjudicado where
  articulo : Option Articulo
deriving DecidableEq

/-- A contract joined with its resolved supplier and its awarded line
items (the spread in `contratosConProveedor`). -/
structure ContratoJ extends Contrato where
  proveedor : Option Proveedor
  adjudicados : List AdjudicadoJ
deriving DecidableEq

/-- Lookup in a JavaScript `Map` built from an entry list: entries later
in the list overwrite earlier ones with the same key. -/
def jsMapGet [DecidableEq κ] (k : κ) : List (κ × β) → Option β
  | [] => none
  | p :: ps =>
    match jsMapGet k ps with
    | some v => some v
    | none => if p.1 = k then some p.2 else none

/-- The `articulosMap` entry list (App.tsx:79-81). -/
def articulosMap (d : AllData) : List (Int × Articulo) :=
  d.articulos.map (fun a => (a.codigo, a))

/-- The `proveedoresMap` entry list (App.tsx:82-84). -/
def proveedoresMap (d : AllData) : List (Str × Proveedor) :=
  d.proveedores.map (fun p => (p.proveedor, p))

/-- The per-award join `{...adj, articulo: articulosMap.get(adj.codigo_fk)}`
(App.tsx:86-89). -/
def joinAward (d : AllData) (adj : Adjudicado) : AdjudicadoJ :=
  { toAdjudicado := adj, articulo := jsMapGet adj.codigo_fk (articulosMap d) }

/-- `adjudicadosConArticulo` (App.tsx:86-89): every award is joined with
the article found under its `codigo_fk`. -/
def adjudicadosConArticulo (d : AllData) : List AdjudicadoJ :=
  d.adjudicados.map (joinAward d)

/-- The per-contract join of `contratosConProveedor` (App.tsx:91-97). -/
def joinContract (d : AllData) (con : Contrato) : ContratoJ :=
  { toContrato := con
    proveedor := jsMapGet con.proveedor_fk (proveedoresMap d)
    adjudicados :=
      (adjudicadosConArticulo d).filter
        (fun adj => decide (adj.contrato_fk = con.contrato)) }

/-- `contratosConProveedor` (App.tsx:91-97): every contract is joined with
the supplier found under its `proveedor_fk` and with the joined awards
whose `contrato_fk` equals its contract code, in input order. -/
def contratosConProveedor (d : AllData) : List ContratoJ :=
  d.contratos.map (joinContract d)

/-- The denormalised view `useData` returns (App.tsx:99-103). -/
structure JoinedData where
  articulos : List Articulo
  proveedores : List Proveedor
  contratos : List ContratoJ
  adjudicados : List AdjudicadoJ

/-- Model of the `useData` hook (App.tsx:77-107). -/
def useData (d : AllData) : JoinedData :=
  { articulos := d.articulos
    proveedores := d.proveedores
    contratos := contratosConProveedor d
    adjudicados := adjudicadosConArticulo d }

end Almacen

namespace Almacen

/-- Model of the `contractStatusData` memo (App.tsx:222-236): a fold over
the contracts counting `vigente` when the parsed end date is valid and
strictly after `now`, `expirado` when it is valid and not after `now`, and
skipping contracts whose end date parses to an invalid date. -/
def contractStatusData (generic : Str → Option Int) (now : Int)
    (contratos : List ContratoJ) : List (Str × Nat) :=
  let counts := contratos.foldl
    (fun (vc : Nat × Nat) c =>
      match parseDate generic c.fin_vigencia with
      | some endDate => if now < endDate then (vc.1 + 1, vc.2) else (vc.1, vc.2 + 1)
      | none => vc)
    (0, 0)
  [("Vigente".data, counts.1), ("Expirado".data, counts.2)]

/-- The accumulation step `spending[k] = (spending[k] || 0) + amt` on a
JavaScript object kept as its ordered entry list: an existing key is
updated in place, a new key is appended. -/
def bump (k : Str) (amt : Int) : List (Str × Int) → List (Str × Int)
  | [] => [(k, amt)]
  | p :: rest => if p.1 = k then (p.1, p.2 + amt) :: rest else p :: bump k amt rest

/-- The grouping key of `spendingBySupplierData` (App.tsx:241-245): the
resolved supplier's name when the join succeeded, the raw `proveedor_fk`
otherwise. -/
def groupKey (c : ContratoJ) : Str :=
  match c.proveedor with
  | some p => p.proveedor
  | none => c.proveedor_fk

/-- The `spending` accumulator of `spendingBySupplierData` as an ordered
entry list. -/
def spendingEntries (cs : List ContratoJ) : List (Str × Int) :=
  cs.foldl (fun acc c => bump (groupKey c) c.monto_maximo acc) []

/-- The comparator `(a, b) => b.value - a.value` of
`spendingBySupplierData`, as the test `cmp(a, b) < 0`. -/
def ltSpend (a b : Str × Int) : Bool := decide (b.2 - a.2 < 0)

/-- Model of the `spendingBySupplierData` memo (App.tsx:238-251):
accumulate per-key sums, sort the entries descending by sum, and keep the
first 10. -/
def spendingBySupplierData (cs : List ContratoJ) : List (Str × Int) :=
  (sSort ltSpend (spendingEntries cs)).take 10

/-- Model of the JavaScript `\w` character class `[A-Za-z0-9_]`. -/
def isWordCharB (c : Char) : Bool := c.isAlphanum || c = '_'

/-- The three-backtick fence marker. -/
def fenceMark : Str := "```".data

/-- Remove trailing JavaScript whitespace. -/
def dropSuffixWhite (s : Str) : Str := (s.reverse.dropWhile isWhiteB).reverse

/-- Model of the fence-stripping step of `queryDataWithGemini`
(geminiService.ts:43-48): match the already-trimmed response against
`^```(\w*)?\s*\n?(.*?)\n?\s*```$` (dot-all, lazy middle) and, when the
middle group is non-empty, replace the text by that group trimmed.  The
regex matches exactly when the text carries a three-backtick fence at both
ends without overlap, and the lazy middle group is then the fenced interior
with the leading word characters (language tag) plus whitespace and the
trailing whitespace removed. -/
def stripFence (t : Str) : Str :=
  if isPrefixB fenceMark t && isSuffixB fenceMark t && decide (6 ≤ t.length) then
    let inner := (t.drop 3).take (t.length - 6)
    let g2 := dropSuffixWhite ((inner.dropWhile isWordCharB).dropWhile isWhiteB)
    if g2 = [] then t else trimL g2
  else t

/-- The fixed error message thrown by `queryDataWithGemini`
(geminiService.ts:53-55). -/
def geminiErrorMsg : Str :=
  "Failed to get a valid response from the AI. The AI may have returned a non-JSON response or an error occurred.".data

/-- Model of `queryDataWithGemini` (geminiService.ts:12-57).  The
transport is the outcome of the external `generateContent` call (`ok` with
the response text, or `error` with the transport error's message); JSON
parsing is the host's `JSON.parse`, passed in as `jsonParse` (`none`
modelling a parse exception).  Both the transport failure and the parse
failure land in the same `catch`, which throws the one fixed message. -/
def queryDataWithGemini {J : Type} (jsonParse : Str → Option J)
    (transport : Except Str Str) : Except Str J :=
  match transport with
  | .error _ => .error geminiErrorMsg
  | .ok text =>
    match jsonParse (stripFence (trimL text)) with
    | some v => .ok v
    | none => .error geminiErrorMsg

/-- The fallback message of `handleQuery` (App.tsx:337). -/
def handleQueryFallback : Str := "Ocurrió un error al procesar la solicitud.".data

/-- Model of the result/error state `handleQuery` leaves behind
(App.tsx:322-341): a success stores the result and no error; a failure
stores no result and the single message `e.message || fallback`. -/
def handleQuery {J : Type} (outcome : Except Str J) : Option J × Option Str :=
  match outcome with
  | .ok v => (some v, none)
  | .error m => (none, some (if m = [] then handleQueryFallback else m))

end Almacen

namespace Almacen

theorem lexLt_irrefl : ∀ s : Str, lexLt s s = false
  | [] => rfl
  | a :: s => by simp [lexLt, lexLt_irrefl s]

/-- Claim C4: for all pairs of values at the sort key, the comparator
orders a `null`/`undefined` first value after the second regardless of
direction (returns 1), orders a non-nullish first value before a
`null`/`undefined` second value (returns -1), compares two strings
case-insensitively and two numbers numerically with the requested
direction (the descending comparison being the exact negation of the
ascending one), and returns 0 on any other combination of types. -/
theorem claim_C4_comparator :
    (∀ (dir : SortDirection) (a b : JsVal),
      (a = JsVal.vnull ∨ a = JsVal.vundefined) → cmpVal dir a b = 1) ∧
    (∀ (dir : SortDirection) (a b : JsVal),
      ¬(a = JsVal.vnull ∨ a = JsVal.vundefined) →
      (b = JsVal.vnull ∨ b = JsVal.vundefined) → cmpVal dir a b = -1) ∧
    (∀ s t : Str,
      (cmpVal .asc (JsVal.vstr s) (JsVal.vstr t) < 0 ↔
        lexLt (toLowerL s) (toLowerL t) = true) ∧
      (cmpVal .asc (JsVal.vstr s) (JsVal.vstr t) = 0 ↔
        toLowerL s = toLowerL t) ∧
      cmpVal .desc (JsVal.vstr s) (JsVal.vstr t) =
        - cmpVal .asc (JsVal.vstr s) (JsVal.vstr t)) ∧
    (∀ m n : Int,
      (cmpVal .asc (JsVal.vnum m) (JsVal.vnum n) < 0 ↔ m < n) ∧
      (cmpVal .asc (JsVal.vnum m) (JsVal.vnum n) = 0 ↔ m = n) ∧
      cmpVal .desc (JsVal.vnum m) (JsVal.vnum n) =
        - cmpVal .asc (JsVal.vnum m) (JsVal.vnum n)) ∧
    (∀ (dir : SortDirection) (a b : JsVal),
      ¬(a = JsVal.vnull ∨ a = JsVal.vundefined) →
      ¬(b = JsVal.vnull ∨ b = JsVal.vundefined) →
      (∀ s t : Str, ¬(a = JsVal.vstr s ∧ b = JsVal.vstr t)) →
      (∀ m n : Int, ¬(a = JsVal.vnum m ∧ b = JsVal.vnum n)) →
      cmpVal dir a b = 0) := by
  refine ⟨?_, ?_, ?_, ?_, ?_⟩
  · intro dir a b h
    unfold cmpVal
    rw [if_pos h]
  · intro dir a b ha hb
    unfold cmpVal
    rw [if_neg ha, if_pos hb]
  · intro s t
    refine ⟨?_, ?_, ?_⟩
    · by_cases h1 : lexLt (toLowerL s) (toLowerL t) = true
      · simp [cmpVal, h1]
      · by_cases h2 : lexLt (toLowerL t) (toLowerL s) = true <;>
          simp [cmpVal, h1, h2]
    · by_cases h1 : lexLt (toLowerL s) (toLowerL t) = true
      · constructor
        · intro h; simp [cmpVal, h1] at h
        · intro h; rw [h] at h1; simp [lexLt_irrefl] at h1
      · by_cases h2 : lexLt (toLowerL t) (toLowerL s) = true
        · constructor
          · intro h; simp [cmpVal, h1, h2] at h
          · intro h; rw [h] at h2; simp [lexLt_irrefl] at h2
        · simp [cmpVal, h1, h2]
          exact lexLt_eq_of_not_lt _ _ (by simpa using h1) (by simpa using h2)
    · by_cases h1 : lexLt (toLowerL s) (toLowerL t) = true
      · simp [cmpVal, h1]
      · by_cases h2 : lexLt (toLowerL t) (toLowerL s) = true <;>
          simp [cmpVal, h1, h2]
  · intro m n
    refine ⟨?_, ?_, ?_⟩
    · by_cases h1 : m < n
      · simp [cmpVal, h1]
      · by_cases h2 : n < m
        · simp [cmpVal, h1, h2]
        · simp [cmpVal, h1, h2]
    · by_cases h1 : m < n
      · simp [cmpVal, h1]; omega
      · by_cases h2 : n < m
        · simp [cmpVal, h1, h2]; omega
        · simp [cmpVal, h1, h2]; omega
    · by_cases h1 : m < n
      · simp [cmpVal, h1]
      · by_cases h2 : n < m <;> simp [cmpVal, h1, h2]
  · intro dir a b ha hb hs hn
    cases a with
    | vnull => exact absurd (Or.inl rfl) ha
    | vundefined => exact absurd (Or.inr rfl) ha
    | vstr s =>
      cases b with
      | vnull => exact absurd (Or.inl rfl) hb
      | vundefined => exact absurd (Or.inr rfl) hb
      | vstr t => exact absurd ⟨rfl, rfl⟩ (hs s t)
      | vnum n => simp [cmpVal]
      | vother r => simp [cmpVal]
    | vnum m =>
      cases b with
      | vnull => exact absurd (Or.inl rfl) hb
      | vundefined => exact absurd (Or.inr rfl) hb
      | vstr t => simp [cmpVal]
      | vnum n => exact absurd ⟨rfl, rfl⟩ (hn m n)
      | vother r => simp [cmpVal]
    | vother r =>
      cases b with
      | vnull => exact absurd (Or.inl rfl) hb
      | vundefined => exact absurd (Or.inr rfl) hb
      | vstr t => simp [cmpVal]
      | vnum n => simp [cmpVal]
      | vother r' => simp [cmpVal]

/-- Witness for C4 at a concrete input: a `null` first operand is ordered
after a number in ascending direction. -/
theorem claim_C4_comparator_witness :
    cmpVal SortDirection.asc JsVal.vnull (JsVal.vnum 3) = 1 :=
  claim_C4_comparator.1 SortDirection.asc JsVal.vnull (JsVal.vnum 3) (Or.inl rfl)

end Almacen

namespace Almacen

theorem foldl_requestSort_some (l : List Str) :
    ∀ c : SortKeyDir, l.foldl (fun c k => requestSort k c) (some c) ≠ none := by
  induction l with
  | nil => intro c h; exact Option.noConfusion h
  | cons k rest ih =>
    intro c
    simpa [requestSort] using
      ih { key := k
           direction := if c.key = k ∧ c.direction = .asc then .desc else .asc }

/-- Claim C10 (amended): every `requestSort` transition produces a
non-null `{key, direction}` state; the produced direction is descending
exactly when the previous state was that same key ascending; no non-empty
sequence of header clicks can restore the null (unsorted) configuration;
and clicking the active key alternates its direction.  (The displayed
order may still coincide with the input order for particular data — see
the counterexample — but the null configuration itself is unreachable.) -/
theorem claim_C10_requestSort :
    (∀ (k : Str) (cfg : Option SortKeyDir), (requestSort k cfg).isSome) ∧
    (∀ (k : Str) (cfg : Option SortKeyDir) (c' : SortKeyDir),
      requestSort k cfg = some c' →
        c'.key = k ∧
        (c'.direction = SortDirection.desc ↔
          cfg = some ⟨k, SortDirection.asc⟩)) ∧
    (∀ clicks : List Str, clicks ≠ [] → ∀ cfg : Option SortKeyDir,
      clicks.foldl (fun c k => requestSort k c) cfg ≠ none) ∧
    (∀ k : Str,
      requestSort k (some ⟨k, SortDirection.asc⟩) =
        some ⟨k, SortDirection.desc⟩ ∧
      requestSort k (some ⟨k, SortDirection.desc⟩) =
        some ⟨k, SortDirection.asc⟩) := by
  refine ⟨?_, ?_, ?_, ?_⟩
  · intro k cfg; rfl
  · intro k cfg c' h
    cases cfg with
    | none =>
      have hc : c' = ⟨k, SortDirection.asc⟩ := (Option.some.inj h).symm
      subst hc
      simp
    | some c =>
      have hc : c' = ⟨k, if c.key = k ∧ c.direction = .asc
                          then SortDirection.desc else SortDirection.asc⟩ :=
        (Option.some.inj h).symm
      subst hc
      by_cases hck : c.key = k ∧ c.direction = .asc
      · rw [if_pos hck]
        refine ⟨rfl, ?_⟩
        constructor
        · intro _
          have hc2 : c = ⟨k, SortDirection.asc⟩ := by
            cases c; simp_all
          rw [hc2]
        · intro _; rfl
      · rw [if_neg hck]
        refine ⟨rfl, ?_⟩
        constructor
        · intro h'; exact absurd h' (by simp)
        · intro h'
          have hc2 : c = ⟨k, SortDirection.asc⟩ := by simpa using h'
          subst hc2
          exact absurd ⟨rfl, rfl⟩ hck
  · intro clicks hne cfg
    cases clicks with
    | nil => exact absurd rfl hne
    | cons k rest =>
      have : (k :: rest).foldl (fun c k => requestSort k c) cfg =
          rest.foldl (fun c k => requestSort k c) (requestSort k cfg) := rfl
      rw [this]
      exact foldl_requestSort_some rest _
  · intro k
    constructor <;> simp [requestSort]

/-- Witness for C10 at a concrete input: one click on header `"a"` leaves
a non-null configuration. -/
theorem claim_C10_requestSort_witness :
    ["a".data].foldl (fun c k => requestSort k c) none ≠ none :=
  claim_C10_requestSort.2.2.1 ["a".data] (by decide) none

/-- Counterexample to claim C10 as stated: clicking a header does move the
configuration off null, but for this two-row table (both rows carrying the
same numeric value at the clicked key) the displayed order after the click
equals the original input order, so the original input order is
re-obtained through a header click. -/
theorem claim_C10_cex :
    requestSort "v".data none = some ⟨"v".data, SortDirection.asc⟩ ∧
    sortedItems (requestSort "v".data none)
        [⟨0, [("v".data, JsVal.vnum 1)]⟩, ⟨1, [("v".data, JsVal.vnum 1)]⟩] =
      [⟨0, [("v".data, JsVal.vnum 1)]⟩, ⟨1, [("v".data, JsVal.vnum 1)]⟩] := by
  constructor
  · rfl
  · decide

end Almacen

namespace Almacen

/-- Claim C2 (amended): `parseDate` lower-cases the input and splits on
`" de "`; when exactly three parts parse as numeric day, table month, and
numeric year it returns `new Date(year, month, day)`; otherwise it splits
the original string on `"/"` and with exactly three numeric parts returns
`new Date(year, month-1, day)`; otherwise it falls back to generic
date-string parsing.  `"15 de enero de 2024"` and `"15/01/2024"` parse to
the same valid date, 2024-01-15, and `parseDate` never throws (it is a
total function).  The one correction: the constructed date is the JS
`Date` constructor's result, which offsets years 0..99 by 1900 and is
invalid outside ECMAScript's representable range, rather than always the
literal calendar date `(year, month, day)`. -/
theorem claim_C2_parseDate :
    (∀ (g : Str → Option Int) (s p0 p1 p2 : Str) (d m y : Int),
      splitOnL deSep (toLowerL s) = [p0, p1, p2] →
      jsParseInt p0 = some d → findAssoc p1 monthsTable = some m →
      jsParseInt p2 = some y →
      parseDate g s = mkJsDate y m d) ∧
    (∀ (g : Str → Option Int) (s q0 q1 q2 : Str) (d m y : Int),
      parseDateDe s = none →
      splitOnL slashSep s = [q0, q1, q2] →
      jsParseInt q0 = some d → jsParseInt q1 = some m →
      jsParseInt q2 = some y →
      parseDate g s = mkJsDate y (m - 1) d) ∧
    (∀ (g : Str → Option Int) (s : Str),
      parseDateDe s = none → parseDateSlash s = none →
      parseDate g s = g s) ∧
    (∀ g : Str → Option Int,
      parseDate g "15 de enero de 2024".data = parseDate g "15/01/2024".data ∧
      parseDate g "15 de enero de 2024".data = some (daysFromCivil 2024 1 15)) := by
  refine ⟨?_, ?_, ?_, ?_⟩
  · intro g s p0 p1 p2 d m y hsplit hd hm hy
    have hde : parseDateDe s = some (mkJsDate y m d) := by
      simp only [parseDateDe, hsplit, hd, hm, hy]
    unfold parseDate
    rw [hde]
  · intro g s q0 q1 q2 d m y hde hsplit hd hm hy
    have hsl : parseDateSlash s = some (mkJsDate y (m - 1) d) := by
      simp only [parseDateSlash, hsplit, hd, hm, hy]
    unfold parseDate
    rw [hde, hsl]
  · intro g s hde hsl
    unfold parseDate
    rw [hde, hsl]
  · intro g
    have h1 : parseDate g "15 de enero de 2024".data = some 19737 := by
      have hde : parseDateDe "15 de enero de 2024".data = some (some 19737) := by
        decide
      unfold parseDate
      rw [hde]
    have h2 : parseDate g "15/01/2024".data = some 19737 := by
      have hde : parseDateDe "15/01/2024".data = none := by decide
      have hsl : parseDateSlash "15/01/2024".data = some (some 19737) := by decide
      unfold parseDate
      rw [hde, hsl]
    refine ⟨h1.trans h2.symm, ?_⟩
    rw [h1]
    decide

/-- Witness for C2 at a concrete input: `"3 de mayo de 2021"` takes the
Spanish-format branch and builds `new Date(2021, 4, 3)`. -/
theorem claim_C2_parseDate_witness :
    parseDate (fun _ => none) "3 de mayo de 2021".data = mkJsDate 2021 4 3 :=
  claim_C2_parseDate.1 (fun _ => none) "3 de mayo de 2021".data
    "3".data "mayo".data "2021".data 3 4 2021
    (by decide) (by decide) (by decide) (by decide)

/-- Counterexample to claim C2 as stated: for `"15 de enero de 99"` the
three parts parse as day 15, month 0, year 99, but the result is not the
calendar date 99-01-15 — the JS `Date` constructor offsets years 0..99 by
1900, so the code produces 1999-01-15. -/
theorem claim_C2_cex :
    parseDate (fun _ => none) "15 de enero de 99".data ≠
      some (daysFromCivil 99 1 15) ∧
    parseDate (fun _ => none) "15 de enero de 99".data =
      some (daysFromCivil 1999 1 15) := by
  exact ⟨by decide, by decide⟩

/-- Claim C9 (amended): an input whose `"/"`-split yields three numeric
parts never reaches the generic-parse fallback (the result does not depend
on it at all); out-of-range components roll over into adjacent months and
years — `"15/13/2024"` parses to January 15, 2025 — and the constructed
date is valid whenever the rolled-over day number is within ECMAScript's
representable range.  The one correction: at astronomically large
components the range check fails and the result is an invalid date rather
than a valid calendar date. -/
theorem claim_C9_rollover :
    (∀ (g g' : Str → Option Int) (s q0 q1 q2 : Str) (d m y : Int),
      splitOnL slashSep s = [q0, q1, q2] →
      jsParseInt q0 = some d → jsParseInt q1 = some m →
      jsParseInt q2 = some y →
      parseDate g s = parseDate g' s) ∧
    (∀ g : Str → Option Int,
      parseDate g "15/13/2024".data = some (mkDayNumber 2024 12 15) ∧
      civilFromDays (mkDayNumber 2024 12 15) = (2025, 1, 15)) ∧
    (∀ y m d : Int,
      -100000000 ≤ mkDayNumber y m d → mkDayNumber y m d ≤ 100000000 →
      mkJsDate y m d = some (mkDayNumber y m d)) := by
  refine ⟨?_, ?_, ?_⟩
  · intro g g' s q0 q1 q2 d m y hsplit hd hm hy
    cases hde : parseDateDe s with
    | some r =>
      unfold parseDate
      rw [hde]
    | none =>
      have hsl : parseDateSlash s = some (mkJsDate y (m - 1) d) := by
        simp only [parseDateSlash, hsplit, hd, hm, hy]
      unfold parseDate
      rw [hde, hsl]
  · intro g
    constructor
    · have hde : parseDateDe "15/13/2024".data = none := by decide
      have hsl : parseDateSlash "15/13/2024".data =
          some (some (mkDayNumber 2024 12 15)) := by decide
      unfold parseDate
      rw [hde, hsl]
    · decide
  · intro y m d h1 h2
    simp only [mkJsDate]
    rw [if_neg (by omega)]

/-- Witness for C9 at a concrete input: with two distinct fallbacks the
numeric pattern `"2/3/2020"` parses identically, so the fallback is never
consulted. -/
theorem claim_C9_rollover_witness :
    parseDate (fun _ => none) "2/3/2020".data =
      parseDate (fun _ => some 0) "2/3/2020".data :=
  claim_C9_rollover.1 (fun _ => none) (fun _ => some 0) "2/3/2020".data
    "2".data "3".data "2020".data 2 3 2020
    (by decide) (by decide) (by decide) (by decide)

/-- Counterexample to claim C9 as stated: `"1/1/300000000"` splits on `"/"`
into three numeric parts, yet `parseDate` produces an invalid date (the
rolled-over day number exceeds ECMAScript's representable range), not a
valid calendar date. -/
theorem claim_C9_cex :
    splitOnL slashSep "1/1/300000000".data =
      ["1".data, "1".data, "300000000".data] ∧
    parseDate (fun _ => none) "1/1/300000000".data = none := by
  exact ⟨by decide, by decide⟩

end Almacen

namespace Almacen

/-- Predicate from the claim: the contract's end date parses to a valid
date strictly after `now`. -/
def vigenteP (g : Str → Option Int) (now : Int) (c : ContratoJ) : Bool :=
  match parseDate g c.fin_vigencia with
  | some d => decide (now < d)
  | none => false

/-- Predicate from the claim: the contract's end date parses to a valid
date not strictly after `now`. -/
def expiradoP (g : Str → Option Int) (now : Int) (c : ContratoJ) : Bool :=
  match parseDate g c.fin_vigencia with
  | some d => decide (d ≤ now)
  | none => false

theorem statusFold_eq (g : Str → Option Int) (now : Int) :
    ∀ (cs : List ContratoJ) (a b : Nat),
      cs.foldl
        (fun (vc : Nat × Nat) c =>
          match parseDate g c.fin_vigencia with
          | some endDate =>
            if now < endDate then (vc.1 + 1, vc.2) else (vc.1, vc.2 + 1)
          | none => vc)
        (a, b) =
      (a + cs.countP (vigenteP g now), b + cs.countP (expiradoP g now)) := by
  intro cs
  induction cs with
  | nil => intro a b; simp
  | cons c cs ih =>
    intro a b
    rw [List.foldl_cons, List.countP_cons, List.countP_cons]
    cases hp : parseDate g c.fin_vigencia with
    | none =>
      have hv : vigenteP g now c = false := by simp [vigenteP, hp]
      have he : expiradoP g now c = false := by simp [expiradoP, hp]
      simp only [hp, hv, he]
      rw [ih a b]
      simp
    | some endDate =>
      by_cases hlt : now < endDate
      · have hv : vigenteP g now c = true := by simp [vigenteP, hp, hlt]
        have he : expiradoP g now c = false := by
          simp [expiradoP, hp]; omega
        simp only [hp, if_pos hlt, hv, he]
        rw [ih (a + 1) b]
        simp [Nat.add_assoc, Nat.add_comm 1]
      · have hv : vigenteP g now c = false := by simp [vigenteP, hp, hlt]
        have he : expiradoP g now c = true := by
          simp [expiradoP, hp]; omega
        simp only [hp, if_neg hlt, hv, he]
        rw [ih a (b + 1)]
        simp [Nat.add_assoc, Nat.add_comm 1]

/-- Claim C5: for every contract list and every `now`, the contract-status
aggregate reports exactly the count of contracts whose end date parses to
a valid date strictly after `now` as `Vigente` and exactly the count of
those whose end date parses to a valid date not after `now` as `Expirado`;
contracts with invalid end dates fall in neither bucket (the two counts
add up to the count of valid end dates), and the computation is total. -/
theorem claim_C5_contract_status (g : Str → Option Int) (now : Int)
    (cs : List ContratoJ) :
    contractStatusData g now cs =
      [("Vigente".data, cs.countP (vigenteP g now)),
       ("Expirado".data, cs.countP (expiradoP g now))] ∧
    cs.countP (vigenteP g now) + cs.countP (expiradoP g now) =
      cs.countP (fun c => (parseDate g c.fin_vigencia).isSome) := by
  constructor
  · unfold contractStatusData
    rw [statusFold_eq g now cs 0 0]
    simp
  · induction cs with
    | nil => simp
    | cons c cs ih =>
      rw [List.countP_cons, List.countP_cons, List.countP_cons]
      cases hp : parseDate g c.fin_vigencia with
      | none =>
        have hv : vigenteP g now c = false := by simp [vigenteP, hp]
        have he : expiradoP g now c = false := by simp [expiradoP, hp]
        simp only [hv, he, hp]
        simpa using ih
      | some endDate =>
        have hv : vigenteP g now c = decide (now < endDate) := by
          simp [vigenteP, hp]
        have he : expiradoP g now c = decide (endDate ≤ now) := by
          simp [expiradoP, hp]
        simp only [hv, he, hp, Option.isSome_some]
        by_cases hlt : now < endDate
        · have h2 : ¬ endDate ≤ now := by omega
          simp [hlt, h2]
          omega
        · have h2 : endDate ≤ now := by omega
          simp [hlt, h2]
          omega

end Almacen

namespace Almacen

/-- The search criterion as the claim words it: some designated search key
holds a non-`null`, non-`undefined` value whose stringified form contains
the term case-insensitively. -/
def matchesSpec (term : Str) (keys : List Str) (r : Row) : Prop :=
  ∃ k ∈ keys, getField r k ≠ .vnull ∧ getField r k ≠ .vundefined ∧
    isInfixB (toLowerL term) (toLowerL (jsToString (getField r k))) = true

theorem rowMatches_iff (term : Str) (keys : List Str) (r : Row) :
    rowMatches (toLowerL term) keys r = true ↔ matchesSpec term keys r := by
  unfold rowMatches matchesSpec
  rw [List.any_eq_true]
  constructor
  · rintro ⟨k, hk, hmatch⟩
    refine ⟨k, hk, ?_⟩
    cases hv : getField r k with
    | vnull => rw [hv] at hmatch; cases hmatch
    | vundefined => rw [hv] at hmatch; cases hmatch
    | vstr s =>
      rw [hv] at hmatch
      exact ⟨by simp [hv], by simp [hv], by simpa [hv] using hmatch⟩
    | vnum n =>
      rw [hv] at hmatch
      exact ⟨by simp [hv], by simp [hv], by simpa [hv] using hmatch⟩
    | vother rep =>
      rw [hv] at hmatch
      exact ⟨by simp [hv], by simp [hv], by simpa [hv] using hmatch⟩
  · rintro ⟨k, hk, h1, h2, h3⟩
    refine ⟨k, hk, ?_⟩
    cases hv : getField r k with
    | vnull => exact absurd hv h1
    | vundefined => exact absurd hv h2
    | vstr s => rw [hv] at h3; simpa using h3
    | vnum n => rw [hv] at h3; simpa using h3
    | vother rep => rw [hv] at h3; simpa using h3

/-- Claim C7: on the sorted row list, an empty search term returns all
rows in the current sort order; a non-empty term returns exactly the rows
for which some designated search key has a non-null, non-undefined value
whose stringified form contains the term case-insensitively; a term
matching no row yields the empty list; and the filtered output is a
subsequence of the sorted list, so the sort order is preserved. -/
theorem claim_C7_search (rows : List Row) (keys : List Str)
    (cfg : Option SortKeyDir) :
    (filteredData [] keys (sortedItems cfg rows) = sortedItems cfg rows) ∧
    (∀ term : Str, term ≠ [] → ∀ r : Row,
      r ∈ filteredData term keys (sortedItems cfg rows) ↔
        r ∈ sortedItems cfg rows ∧ matchesSpec term keys r) ∧
    (∀ term : Str, term ≠ [] →
      (∀ r ∈ sortedItems cfg rows, ¬ matchesSpec term keys r) →
      filteredData term keys (sortedItems cfg rows) = []) ∧
    (∀ term : Str,
      (filteredData term keys (sortedItems cfg rows)).Sublist
        (sortedItems cfg rows)) := by
  refine ⟨?_, ?_, ?_, ?_⟩
  · simp [filteredData]
  · intro term hterm r
    unfold filteredData
    rw [if_neg hterm, List.mem_filter]
    exact and_congr_right (fun _ => rowMatches_iff term keys r)
  · intro term hterm hall
    unfold filteredData
    rw [if_neg hterm]
    rw [List.filter_eq_nil_iff]
    intro r hr
    rw [Bool.not_eq_true]
    rw [Bool.eq_false_iff]
    intro hmatch
    exact hall r hr ((rowMatches_iff term keys r).mp hmatch)
  · intro term
    unfold filteredData
    by_cases hterm : term = []
    · rw [if_pos hterm]
    · rw [if_neg hterm]
      exact List.filter_sublist _

/-- Witness for C7 at a concrete input: the term `"alp"` matches the row
whose `name` field is `"Alpha"`, so that row is in the filtered output. -/
theorem claim_C7_search_witness :
    (⟨0, [("name".data, JsVal.vstr "Alpha".data)]⟩ : Row) ∈
      filteredData "alp".data ["name".data]
        (sortedItems none [⟨0, [("name".data, JsVal.vstr "Alpha".data)]⟩]) :=
  ((claim_C7_search [⟨0, [("name".data, JsVal.vstr "Alpha".data)]⟩]
      ["name".data] none).2.1 "alp".data (by decide) _).mpr
    ⟨by decide, ⟨"name".data, by decide, by decide, by decide, by decide⟩⟩

end Almacen

namespace Almacen

theorem ltRow_trans (dir : SortDirection) (k : Str) :
    ∀ a b c : Row, ltRow dir k a b = true → ltRow dir k b c = true →
      ltRow dir k a c = true := by
  intro a b c h1 h2
  exact decide_eq_true
    (cmpVal_lt_trans dir _ _ _ (of_decide_eq_true h1) (of_decide_eq_true h2))

/-- Claim C3 (amended): sorting is idempotent — for every data array and
every key/direction, applying the table sort twice yields the same list as
applying it once; and for every array whose values at the key are strictly
totally ordered under the comparator (pairwise comparable with no ties:
all strings with distinct lower-casings or all numbers with distinct
values), sorting descending yields the exact reverse of sorting ascending.
The one correction: with ties (equal values at the key), the stable sort
preserves their input order in both directions, so the descending order is
not the reverse of the ascending order. -/
theorem claim_C3_sort_laws :
    (∀ (rows : List Row) (k : Str) (dir : SortDirection),
      jsSortRows dir k (jsSortRows dir k rows) = jsSortRows dir k rows) ∧
    (∀ (rows : List Row) (k : Str),
      rows.Pairwise (fun a b => strictPair (getField a k) (getField b k)) →
      jsSortRows SortDirection.desc k rows =
        (jsSortRows SortDirection.asc k rows).reverse) := by
  constructor
  · intro rows k dir
    exact sSort_idem (ltRow dir k) (ltRow_asymm dir k) rows
  · intro rows k hstrict
    set R : Row → Row → Prop :=
      fun a b => strictPair (getField a k) (getField b k) with hR
    have hRsymm : ∀ {x y : Row}, R x y → R y x := fun h => strictPair_symm h
    set A := jsSortRows SortDirection.asc k rows with hA
    set D := jsSortRows SortDirection.desc k rows with hD
    have permA : A.Perm rows := sSort_perm _ rows
    have permD : D.Perm rows := sSort_perm _ rows
    have pairA : A.Pairwise R :=
      (List.Perm.pairwise_iff hRsymm permA).mpr hstrict
    have pairD : D.Pairwise R :=
      (List.Perm.pairwise_iff hRsymm permD).mpr hstrict
    have chainA : A.Chain' (fun p n => ltRow SortDirection.asc k n p = false) :=
      chain'_sSort _ (ltRow_asymm _ _) rows
    have chainD : D.Chain' (fun p n => ltRow SortDirection.desc k n p = false) :=
      chain'_sSort _ (ltRow_asymm _ _) rows
    have chainSA : A.Chain' (fun a b => ltRow SortDirection.asc k a b = true) := by
      refine chain'_imp₂ ?_ chainA pairA.chain'
      intro a b h1 h2
      rcases strictPair_total SortDirection.asc h2 with hlt | hlt
      · exact decide_eq_true hlt
      · exact absurd (decide_eq_true hlt) (by simp [ltRow] at h1 ⊢; exact h1)
    have chainSD : D.Chain' (fun a b => ltRow SortDirection.desc k a b = true) := by
      refine chain'_imp₂ ?_ chainD pairD.chain'
      intro a b h1 h2
      rcases strictPair_total SortDirection.desc h2 with hlt | hlt
      · exact decide_eq_true hlt
      · exact absurd (decide_eq_true hlt) (by simp [ltRow] at h1 ⊢; exact h1)
    have pairSA : A.Pairwise (fun a b => ltRow SortDirection.asc k a b = true) :=
      pairwise_of_chain'_trans A chainSA (ltRow_trans _ _)
    have pairSD : D.Pairwise (fun a b => ltRow SortDirection.desc k a b = true) :=
      pairwise_of_chain'_trans D chainSD (ltRow_trans _ _)
    have pairRev : A.reverse.Pairwise
        (fun a b => ltRow SortDirection.desc k a b = true) := by
      rw [List.pairwise_reverse]
      refine (pairSA.and pairA).imp ?_
      intro a b hab
      exact decide_eq_true (strictPair_flip hab.2 (of_decide_eq_true hab.1))
    have permDR : D.Perm A.reverse :=
      permD.trans (permA.symm.trans (List.reverse_perm A).symm)
    refine eq_of_perm_of_pairwise_strict ?_ D A.reverse permDR pairSD pairRev
    intro a b h1 h2
    exact absurd (of_decide_eq_true h2)
      (cmpVal_asymm _ _ _ (of_decide_eq_true h1))

/-- Witness for C3 at a concrete input: for two rows with distinct numeric
values at the key, descending order is the reverse of ascending order. -/
theorem claim_C3_sort_laws_witness :
    jsSortRows SortDirection.desc "v".data
        [⟨0, [("v".data, JsVal.vnum 2)]⟩, ⟨1, [("v".data, JsVal.vnum 1)]⟩] =
      (jsSortRows SortDirection.asc "v".data
        [⟨0, [("v".data, JsVal.vnum 2)]⟩, ⟨1, [("v".data, JsVal.vnum 1)]⟩]).reverse :=
  claim_C3_sort_laws.2
    [⟨0, [("v".data, JsVal.vnum 2)]⟩, ⟨1, [("v".data, JsVal.vnum 1)]⟩]
    "v".data
    (by
      refine List.Pairwise.cons ?_ (List.pairwise_singleton _ _)
      intro b hb
      have hb' : b = (⟨1, [("v".data, JsVal.vnum 1)]⟩ : Row) := by
        simpa using hb
      subst hb'
      show ((2 : Int) ≠ 1)
      decide)

/-- Counterexample to claim C3 as stated: two rows carrying the same
numeric value at the key are totally ordered (every pair is comparable
under the comparator, which returns 0), yet sorting descending does not
reverse the ascending order — the stable sort keeps the tied rows in input
order both times. -/
theorem claim_C3_cex :
    getField ⟨0, [("v".data, JsVal.vnum 5)]⟩ "v".data = JsVal.vnum 5 ∧
    getField ⟨1, [("v".data, JsVal.vnum 5)]⟩ "v".data = JsVal.vnum 5 ∧
    jsSortRows SortDirection.desc "v".data
        [⟨0, [("v".data, JsVal.vnum 5)]⟩, ⟨1, [("v".data, JsVal.vnum 5)]⟩] ≠
      (jsSortRows SortDirection.asc "v".data
        [⟨0, [("v".data, JsVal.vnum 5)]⟩, ⟨1, [("v".data, JsVal.vnum 5)]⟩]).reverse := by
  exact ⟨by decide, by decide, by decide⟩

end Almacen

namespace Almacen

/-- Total of `monto_maximo` over the contracts grouped under key `k`. -/
def totalFor (k : Str) (cs : List ContratoJ) : Int :=
  ((cs.filter (fun c => decide (groupKey c = k))).map
    (fun c => c.monto_maximo)).sum

theorem findAssoc_bump (k k' : Str) (amt : Int) :
    ∀ acc : List (Str × Int),
      findAssoc k (bump k' amt acc) =
        if k' = k then some ((findAssoc k acc).getD 0 + amt)
        else findAssoc k acc := by
  intro acc
  induction acc with
  | nil => by_cases h : k' = k <;> simp [bump, findAssoc, h]
  | cons p rest ih =>
    by_cases hp : p.1 = k'
    · simp only [bump, if_pos hp]
      by_cases hk : p.1 = k
      · have hk'k : k' = k := hp.symm.trans hk
        simp [findAssoc, hk, hk'k]
      · have hk'k : ¬ k' = k := fun h => hk (hp.trans h)
        simp [findAssoc, hk, hk'k]
    · simp only [bump, if_neg hp]
      by_cases hk : p.1 = k
      · have hk'k : ¬ k' = k := fun h => hp (hk.trans h.symm)
        simp [findAssoc, hk, hk'k]
      · simp only [findAssoc, if_neg hk, ih]

theorem bump_keys (k : Str) (amt : Int) :
    ∀ acc : List (Str × Int),
      (bump k amt acc).map Prod.fst =
        if k ∈ acc.map Prod.fst then acc.map Prod.fst
        else acc.map Prod.fst ++ [k] := by
  intro acc
  induction acc with
  | nil => simp [bump]
  | cons p rest ih =>
    by_cases hp : p.1 = k
    · simp [bump, hp]
    · have hne : ¬ k = p.1 := fun h => hp h.symm
      by_cases hmem : k ∈ rest.map Prod.fst
      · simp [bump, hp, ih, hmem, hne]
      · simp [bump, hp, ih, hmem, hne]

theorem bump_keys_nodup (k : Str) (amt : Int) (acc : List (Str × Int))
    (h : (acc.map Prod.fst).Nodup) : ((bump k amt acc).map Prod.fst).Nodup := by
  rw [bump_keys]
  by_cases hmem : k ∈ acc.map Prod.fst
  · rw [if_pos hmem]; exact h
  · rw [if_neg hmem]
    simp [List.nodup_append, h, hmem]

theorem spendingFold_lookup (k : Str) :
    ∀ (cs : List ContratoJ) (acc : List (Str × Int)),
      findAssoc k
        (cs.foldl (fun acc c => bump (groupKey c) c.monto_maximo acc) acc) =
      (match findAssoc k acc with
       | some v => some (v + totalFor k cs)
       | none =>
         if cs.any (fun c => decide (groupKey c = k)) then some (totalFor k cs)
         else none) := by
  intro cs
  induction cs with
  | nil =>
    intro acc
    cases h : findAssoc k acc <;> simp [totalFor, h]
  | cons c cs ih =>
    intro acc
    rw [List.foldl_cons, ih (bump (groupKey c) c.monto_maximo acc),
      findAssoc_bump]
    by_cases hk : groupKey c = k
    · rw [if_pos hk]
      have htot : totalFor k (c :: cs) = c.monto_maximo + totalFor k cs := by
        simp [totalFor, List.filter_cons, hk]
      have hany : (c :: cs).any (fun c => decide (groupKey c = k)) = true := by
        simp [List.any_cons, hk]
      cases h : findAssoc k acc with
      | some v => simp [h, htot]; try omega
      | none => simp [h, htot, hany]; try omega
    · rw [if_neg hk]
      have htot : totalFor k (c :: cs) = totalFor k cs := by
        simp [totalFor, List.filter_cons, hk]
      have hany : (c :: cs).any (fun c => decide (groupKey c = k)) =
          cs.any (fun c => decide (groupKey c = k)) := by
        simp [List.any_cons, hk]
      cases h : findAssoc k acc with
      | some v => simp [h, htot]
      | none => simp [h, htot, hany]

theorem spendingEntries_keys_nodup :
    ∀ (cs : List ContratoJ) (acc : List (Str × Int)),
      (acc.map Prod.fst).Nodup →
      ((cs.foldl (fun acc c => bump (groupKey c) c.monto_maximo acc)
          acc).map Prod.fst).Nodup := by
  intro cs
  induction cs with
  | nil => intro acc h; exact h
  | cons c cs ih =>
    intro acc h
    rw [List.foldl_cons]
    exact ih _ (bump_keys_nodup _ _ _ h)

/-- Claim C6: the spend-by-supplier aggregate accumulates one entry per
group key (the resolved supplier name, else the raw `proveedor_fk`), each
carrying the sum of `monto_maximo` over exactly the contracts of that
group; the result is the descending-by-sum stable sort of those entries
truncated to at most 10; and concretely, two contracts of one resolved
supplier with amounts 100 and 200 produce the single entry 300 ranked
ahead of a 50 entry. -/
theorem claim_C6_spending (cs : List ContratoJ) :
    ((spendingEntries cs).map Prod.fst).Nodup ∧
    (∀ k : Str,
      findAssoc k (spendingEntries cs) =
        if cs.any (fun c => decide (groupKey c = k)) then some (totalFor k cs)
        else none) ∧
    spendingBySupplierData cs = (sSort ltSpend (spendingEntries cs)).take 10 ∧
    (spendingBySupplierData cs).Pairwise (fun a b => b.2 ≤ a.2) ∧
    (spendingBySupplierData cs).length ≤ 10 := by
  refine ⟨?_, ?_, rfl, ?_, ?_⟩
  · exact spendingEntries_keys_nodup cs [] (by simp)
  · intro k
    have h := spendingFold_lookup k cs []
    simpa [spendingEntries, findAssoc] using h
  · have hasym : ∀ a b : Str × Int, ltSpend a b = true → ltSpend b a = false := by
      intro a b h
      have h' := of_decide_eq_true h
      simp only [ltSpend, decide_eq_false_iff_not]
      omega
    have hchain := chain'_sSort ltSpend hasym (spendingEntries cs)
    have hpair : (sSort ltSpend (spendingEntries cs)).Pairwise
        (fun a b => ltSpend b a = false) := by
      refine pairwise_of_chain'_trans _ hchain ?_
      intro a b c h1 h2
      simp only [ltSpend, decide_eq_false_iff_not] at h1 h2 ⊢
      omega
    have hpair' : (sSort ltSpend (spendingEntries cs)).Pairwise
        (fun a b : Str × Int => b.2 ≤ a.2) := by
      refine hpair.imp ?_
      intro a b h
      simp only [ltSpend, decide_eq_false_iff_not] at h
      omega
    exact List.Pairwise.sublist (List.take_sublist 10 _) hpair'
  · exact List.length_take_le 10 _

/-- Sample supplier used by the concrete C6 scenario. -/
def sampleProvA : Proveedor :=
  { id_proveedor := 1, proveedor := "A".data, domicilio := [], ciudad := []
    correo_electronico := none, telefono := none, giro_comercial := []
    logotipo_imagen := [] }

/-- Sample joined contract used by the concrete C6 scenario. -/
def sampleContratoJ (idc : Int) (fk : Str) (monto : Int)
    (prov : Option Proveedor) : ContratoJ :=
  { id_contrato := idc, licitacion_fk := [], contrato := [], proveedor_fk := fk
    monto_maximo := monto, inicio_vigencia := [], fin_vigencia := []
    proveedor := prov, adjudicados := [] }

/-- Concrete C6 scenario from the claim: amounts 100 and 200 of one
resolved supplier collapse to a single 300 entry ranked first. -/
theorem claim_C6_spending_concrete :
    spendingBySupplierData
      [sampleContratoJ 1 "P1".data 100 (some sampleProvA),
       sampleContratoJ 2 "P1".data 200 (some sampleProvA),
       sampleContratoJ 3 "X".data 50 none] =
    [("A".data, 300), ("X".data, 50)] := by
  decide

end Almacen

namespace Almacen

/-- Claim C8 (amended): the query bridge strips an optional surrounding
triple-backtick code fence (with optional language tag) from the trimmed
response text and parses the remainder as JSON; on any failure — transport
failure or non-JSON remainder — it surfaces exactly one user-facing error
message, with no partial result and no retry.  The one correction: the
surfaced message is the service's one fixed string ("Failed to get a valid
response from the AI. ..."), which the caller passes through verbatim; the
underlying transport or parse error text is NOT passed through. -/
theorem claim_C8_query_bridge :
    (∀ (J : Type) (jsonParse : Str → Option J) (e : Str),
      queryDataWithGemini jsonParse (Except.error e) =
        Except.error geminiErrorMsg) ∧
    (∀ (J : Type) (jsonParse : Str → Option J) (text : Str) (v : J),
      jsonParse (stripFence (trimL text)) = some v →
      queryDataWithGemini jsonParse (Except.ok text) = Except.ok v) ∧
    (∀ (J : Type) (jsonParse : Str → Option J) (text : Str),
      jsonParse (stripFence (trimL text)) = none →
      queryDataWithGemini jsonParse (Except.ok text) =
        Except.error geminiErrorMsg) ∧
    (∀ (J : Type) (jsonParse : Str → Option J) (transport : Except Str Str),
      handleQuery (queryDataWithGemini jsonParse transport) =
          (none, some geminiErrorMsg) ∨
      ∃ v : J, handleQuery (queryDataWithGemini jsonParse transport) =
          (some v, none)) ∧
    (stripFence (trimL " ```json\n[1, 2]\n``` ".data) = "[1, 2]".data ∧
     stripFence "```\n[true, 4]\n```".data = "[true, 4]".data ∧
     stripFence "[3]".data = "[3]".data) := by
  have hne : geminiErrorMsg ≠ [] := by decide
  refine ⟨?_, ?_, ?_, ?_, ?_⟩
  · intro J jsonParse e; rfl
  · intro J jsonParse text v h
    simp only [queryDataWithGemini, h]
  · intro J jsonParse text h
    simp only [queryDataWithGemini, h]
  · intro J jsonParse transport
    cases transport with
    | error e =>
      left
      simp [queryDataWithGemini, handleQuery, hne]
    | ok text =>
      cases h : jsonParse (stripFence (trimL text)) with
      | some v =>
        right
        refine ⟨v, ?_⟩
        simp only [queryDataWithGemini, h]
        rfl
      | none =>
        left
        simp only [queryDataWithGemini, h]
        simp [handleQuery, hne]
  · exact ⟨by decide, by decide, by decide⟩

/-- Witness for C8 at a concrete input: a fenced JSON array is unfenced
and parsed successfully. -/
theorem claim_C8_query_bridge_witness :
    queryDataWithGemini (fun s => if s = "[1]".data then some 1 else none)
        (Except.ok "```\n[1]\n```".data) = Except.ok 1 :=
  claim_C8_query_bridge.2.1 Nat
    (fun s => if s = "[1]".data then some 1 else none)
    "```\n[1]\n```".data 1 (by decide)

/-- Counterexample to claim C8 as stated: a transport failure whose error
text is `"network down"` surfaces the service's fixed message, not the
transport error text — the error text is not passed through verbatim. -/
theorem claim_C8_cex :
    queryDataWithGemini (fun _ => (none : Option Unit))
        (Except.error "network down".data) = Except.error geminiErrorMsg ∧
    geminiErrorMsg ≠ "network down".data := by
  exact ⟨rfl, by decide⟩

end Almacen


namespace Almacen

theorem jsMapGet_eq_none_iff [DecidableEq κ] (k : κ) :
    ∀ ps : List (κ × β), jsMapGet k ps = none ↔ ∀ p ∈ ps, p.1 ≠ k := by
  intro ps
  induction ps with
  | nil => simp [jsMapGet]
  | cons p ps ih =>
    constructor
    · intro h q hq
      rw [jsMapGet] at h
      cases hrec : jsMapGet k ps with
      | some v => rw [hrec] at h; cases h
      | none =>
        rw [hrec] at h
        rcases List.mem_cons.mp hq with rfl | hq'
        · intro hk
          rw [if_pos hk] at h
          cases h
        · exact (ih.mp hrec) q hq'
    · intro h
      rw [jsMapGet]
      have hrec : jsMapGet k ps = none :=
        ih.mpr (fun q hq => h q (List.mem_cons_of_mem p hq))
      rw [hrec, if_neg (h p (List.mem_cons_self p ps))]

theorem jsMapGet_map_eq_some [DecidableEq κ] {β : Type} (key : β → κ) (k : κ)
    (a : β) :
    ∀ l : List β, (l.map key).Nodup → a ∈ l → key a = k →
      jsMapGet k (l.map (fun x => (key x, x))) = some a := by
  intro l
  induction l with
  | nil => intro _ ha; cases ha
  | cons x l ih =>
    intro hnd ha hk
    have hnd' : (key x) ∉ l.map key ∧ (l.map key).Nodup := by
      rw [List.map_cons] at hnd
      exact List.nodup_cons.mp hnd
    rw [List.map_cons, jsMapGet]
    rcases List.mem_cons.mp ha with rfl | ha'
    · have hknotin : ∀ p ∈ l.map (fun x => (key x, x)), p.1 ≠ k := by
        intro p hp
        rcases List.mem_map.mp hp with ⟨y, hy, rfl⟩
        intro hkyk
        have hkey : key y = k := hkyk
        have hmem : key y ∈ l.map key := List.mem_map_of_mem key hy
        rw [hkey, ← hk] at hmem
        exact hnd'.1 hmem
      rw [(jsMapGet_eq_none_iff k _).mpr hknotin, if_pos hk]
    · rw [ih hnd'.2 ha' hk]

/-- Claim C1: the join layer is index-aligned with its inputs and
preserves every base field (in particular the raw `proveedor_fk`); each
joined award carries `some a` exactly for the article `a` whose `codigo`
equals its `codigo_fk` (absent when no article matches); each joined
contract carries `some s` exactly for the supplier `s` whose `proveedor`
equals its `proveedor_fk` (absent when no supplier matches); and each
joined contract's `adjudicados` is the input-ordered sublist of the joined
awards whose `contrato_fk` equals the contract's code.  The uniqueness
hypotheses state that `codigo` and `proveedor` are keys of their tables,
as the spec's data model requires. -/
theorem claim_C1_join (d : AllData)
    (hA : (d.articulos.map Articulo.codigo).Nodup)
    (hP : (d.proveedores.map Proveedor.proveedor).Nodup) :
    (∀ i : Nat,
      ((useData d).adjudicados[i]?).map AdjudicadoJ.toAdjudicado =
        d.adjudicados[i]?) ∧
    (∀ (i : Nat) (j : AdjudicadoJ), (useData d).adjudicados[i]? = some j →
      ((∀ a ∈ d.articulos, a.codigo ≠ j.codigo_fk) → j.articulo = none) ∧
      (∀ a ∈ d.articulos, a.codigo = j.codigo_fk → j.articulo = some a)) ∧
    (∀ i : Nat,
      ((useData d).contratos[i]?).map ContratoJ.toContrato =
        d.contratos[i]?) ∧
    (∀ (i : Nat) (c : ContratoJ), (useData d).contratos[i]? = some c →
      ((∀ s ∈ d.proveedores, s.proveedor ≠ c.proveedor_fk) →
        c.proveedor = none) ∧
      (∀ s ∈ d.proveedores, s.proveedor = c.proveedor_fk →
        c.proveedor = some s) ∧
      c.adjudicados = (useData d).adjudicados.filter
        (fun j => decide (j.contrato_fk = c.contrato))) := by
  refine ⟨?_, ?_, ?_, ?_⟩
  · intro i
    show ((adjudicadosConArticulo d)[i]?).map AdjudicadoJ.toAdjudicado =
      d.adjudicados[i]?
    rw [adjudicadosConArticulo, List.getElem?_map]
    cases d.adjudicados[i]? <;> rfl
  · intro i j hj
    have hj' : (d.adjudicados[i]?).map (joinAward d) = some j := by
      rw [← List.getElem?_map]
      exact hj
    cases hadj : d.adjudicados[i]? with
    | none => rw [hadj] at hj'; cases hj'
    | some adj =>
      rw [hadj] at hj'
      have hjj : joinAward d adj = j := Option.some.inj hj'
      constructor
      · intro hnone
        rw [← hjj]
        show jsMapGet adj.codigo_fk (articulosMap d) = none
        rw [jsMapGet_eq_none_iff]
        intro p hp
        rcases List.mem_map.mp hp with ⟨a, ha, rfl⟩
        have h1 := hnone a ha
        rw [← hjj] at h1
        exact h1
      · intro a ha hak
        rw [← hjj]
        show jsMapGet adj.codigo_fk (articulosMap d) = some a
        rw [← hjj] at hak
        exact jsMapGet_map_eq_some Articulo.codigo adj.codigo_fk a
          d.articulos hA ha hak
  · intro i
    show ((contratosConProveedor d)[i]?).map ContratoJ.toContrato =
      d.contratos[i]?
    rw [contratosConProveedor, List.getElem?_map]
    cases d.contratos[i]? <;> rfl
  · intro i c hc
    have hc' : (d.contratos[i]?).map (joinContract d) = some c := by
      rw [← List.getElem?_map]
      exact hc
    cases hcon : d.contratos[i]? with
    | none => rw [hcon] at hc'; cases hc'
    | some con =>
      rw [hcon] at hc'
      have hcc : joinContract d con = c := Option.some.inj hc'
      refine ⟨?_, ?_, ?_⟩
      · intro hnone
        rw [← hcc]
        show jsMapGet con.proveedor_fk (proveedoresMap d) = none
        rw [jsMapGet_eq_none_iff]
        intro p hp
        rcases List.mem_map.mp hp with ⟨s, hs, rfl⟩
        have h1 := hnone s hs
        rw [← hcc] at h1
        exact h1
      · intro s hs hsk
        rw [← hcc]
        show jsMapGet con.proveedor_fk (proveedoresMap d) = some s
        rw [← hcc] at hsk
        exact jsMapGet_map_eq_some Proveedor.proveedor con.proveedor_fk s
          d.proveedores hP hs hsk
      · rw [← hcc]
        rfl

end Almacen

namespace Almacen

/-- Sample article for the C1 witness. -/
def sampleArticulo : Articulo :=
  { codigo := 7, descripcion_articulo := "arroz".data
    unidad_medida := "kg".data, partida_especifica := 1
    precio_medio := Sum.inl 10, ultima_fecha := []
    estatus := none, imagen_producto := none }

/-- Sample award for the C1 witness. -/
def sampleAdjudicado : Adjudicado :=
  { id_adjudicado := 1, contrato_fk := "C1".data, codigo_fk := 7
    cantidad_minima := 0, cantidad_maxima := 1, cantidad_consumida := 0
    cantidad_disponible := 1, estatus_cantidad := [], precio_unitario := 10
    iva := 0, ieps := 0, importe_maximo := 10 }

/-- Sample contract for the C1 witness. -/
def sampleContrato : Contrato :=
  { id_contrato := 1, licitacion_fk := [], contrato := "C1".data
    proveedor_fk := "A".data, monto_maximo := 100
    inicio_vigencia := [], fin_vigencia := [] }

/-- Sample base tables for the C1 witness. -/
def sampleAllData : AllData :=
  { articulos := [sampleArticulo], proveedores := [sampleProvA]
    contratos := [sampleContrato], adjudicados := [sampleAdjudicado] }

/-- Witness for C1 at a concrete input: on the one-row sample tables
(whose key columns are trivially unique), the joined award list is
index-aligned with the input award list. -/
theorem claim_C1_join_witness :
    ((useData sampleAllData).adjudicados[0]?).map AdjudicadoJ.toAdjudicado =
      sampleAllData.adjudicados[0]? :=
  (claim_C1_join sampleAllData (by decide) (by decide)).1 0

end Almacen
